import Mathlib

/-!
Verification of the recommendation engine of a YouTube-style frontend.

The development embeds three source modules:

* `YtRec.Engine` — the strict-filter pipeline of `src/unnamed/part_000`:
  the scorer `calculateScore`, the duration parser, the first-seen
  deduplication of the aggregation stage and the final
  threshold/sort/cap stage of `getDeeplyAnalyzedRecommendations`;
* `YtRec.Xrai` — the weighted dual-pool pipeline of `src/unnamed/part_001`:
  the pool mixer `mixFeeds` and the fetch/join orchestration of
  `getXraiRecommendations`;
* `YtRec.Utils` — the strict pipeline variant of
  `src/utils/recommendation.ts`, in particular its seen-id/filter loop.

Modelling conventions: JavaScript strings are `String` (a list of
characters); machine numbers are `Nat`, `Int` or `ℚ` as appropriate;
a fallible remote call is an `Except Unit (List Video)` outcome and
`Promise.all` is `promiseAll`; ambient randomness (`Math.random`) is an
explicitly passed choice function.  `toLowerCase` is modelled by the
ASCII character mapping (the claims only exercise ASCII and Japanese
text, which the JS mapping also leaves unchanged outside ASCII).
-/

namespace YtRec

/-- JS `String.prototype.toLowerCase`, as the ASCII character mapping. -/
def toLowerStr (s : String) : String := String.mk (s.data.map Char.toLower)

/-- Whether `pat` occurs at the head of `cs`. -/
def startsWithChars : List Char → List Char → Bool
  | [], _ => true
  | _ :: _, [] => false
  | p :: ps, c :: cs => p == c && startsWithChars ps cs

/-- Whether `pat` occurs somewhere in the text (JS `String.prototype.includes`). -/
def hasSubChars (pat : List Char) : List Char → Bool
  | [] => pat.isEmpty
  | c :: rest => startsWithChars pat (c :: rest) || hasSubChars pat rest

/-- JS `hay.includes(pat)`. -/
def strHasSub (hay pat : String) : Bool := hasSubChars pat.data hay.data

/-- Value of a decimal digit run, as JS `parseInt` on an all-digit string
(`parseInt('0', 10)` being the absent-component default of the source). -/
def decVal (l : List Char) : Nat := l.foldl (fun acc c => acc * 10 + (c.toNat - 48)) 0

/-- One optional component `(?:(\d+)X)?` of the duration regex, at the current
position: it participates in the match exactly when a nonempty digit run is
followed by the marker letter `c`; otherwise it consumes nothing.  (Regex
backtracking cannot rescue a failed component: after any shorter digit run the
next character is still a digit, not the marker.) -/
def component (cs : List Char) (c : Char) : Nat × List Char :=
  let ds := cs.takeWhile Char.isDigit
  match ds, cs.drop ds.length with
  | [], _ => (0, cs)
  | _ :: _, c' :: rest => if c' == c then (decVal ds, rest) else (0, cs)
  | _ :: _, [] => (0, cs)

/-- Position right after the first occurrence of the literal `PT`.  The regex
`PT(?:(\d+)H)?(?:(\d+)M)?(?:(\d+)S)?` of the source succeeds at the first
`PT` of the input (every group is optional) and fails exactly when no `PT`
occurs. -/
def findPT : List Char → Option (List Char)
  | [] => none
  | c :: rest =>
    if startsWithChars ['P', 'T'] (c :: rest) then some rest.tail else findPT rest

/-- The three optional components after `PT`, combined as `h*3600 + m*60 + s`. -/
def parsePT (cs : List Char) : Nat :=
  let p1 := component cs 'H'
  let p2 := component p1.2 'M'
  let p3 := component p2.2 'S'
  p1.1 * 3600 + p2.1 * 60 + p3.1

/-- The function `parseDurationToSeconds` of `src/unnamed/part_000` lines 58-67 and
`src/utils/recommendation.ts` lines 39-49.  The two copies agree: the explicit
empty-string guard of the first copy is subsumed by the regex having no match
in the empty string. -/
def parseDurationToSeconds (s : String) : Nat :=
  match findPT s.data with
  | none => 0
  | some rest => parsePT rest

/-- The `Video` data model of `../types` as used by the engine. -/
structure Video where
  id : String
  title : String
  channelId : String
  channelName : String
  descriptionSnippet : Option String
  uploadedAt : String
  isoDuration : String
deriving DecidableEq

instance : Inhabited Video := ⟨⟨"", "", "", "", none, "", ""⟩⟩

/-- The `Channel` data model of `../types` as used by the engine. -/
structure Channel where
  id : String
  name : String
  avatarUrl : String
deriving DecidableEq

namespace Engine

/-- The `RecommendationSource` of `src/unnamed/part_000` lines 75-96.  Optional
TypeScript fields (`field?:`) are `Option`s; `undefined` is `none`. -/
structure RecommendationSource where
  searchHistory : List String
  watchHistory : List Video
  subscribedChannels : List Channel
  preferredGenres : List String
  preferredChannels : List String
  preferredDurations : Option (List String)
  preferredFreshness : Option String
  discoveryMode : Option String
  ngKeywords : Option (List String)
  prefDepth : Option String
  prefVocal : Option String
  prefEra : Option String
  prefRegion : Option String
  prefLive : Option String
  prefInfoEnt : Option String
  prefPacing : Option String
  prefVisual : Option String
  prefCommunity : Option String
  page : Int
deriving DecidableEq

/-- The text the scorer matches against: the space-separated template
`` `${lowerTitle} ${lowerDesc} ${lowerChannel}` `` of line 109. -/
def fullTextOf (video : Video) : String :=
  toLowerStr video.title ++ " " ++ toLowerStr (video.descriptionSnippet.getD "") ++ " "
    ++ toLowerStr video.channelName

/-- The NG scan of `calculateScore` (lines 112-118): the first NG keyword whose
lower-cased form occurs in the full text, if any. -/
def ngHit (video : Video) (source : RecommendationSource) : Option String :=
  match source.ngKeywords with
  | none => none
  | some ngs => ngs.find? (fun ng => strHasSub (fullTextOf video) (toLowerStr ng))

/-- Combine two score/reason contributions: scores add, reasons concatenate in
evaluation order (the sequential accumulator of the source, reassociated). -/
def add (a b : Int × List String) : Int × List String := (a.1 + b.1, a.2 ++ b.2)

/-- The `durationMatch` flag of lines 124-128. -/
def durationMatchB (prefs : List String) (sec : Nat) : Bool :=
  (prefs.contains "short" && decide (0 < sec) && decide (sec < 240)) ||
  (prefs.contains "medium" && decide (240 ≤ sec) && decide (sec ≤ 1200)) ||
  (prefs.contains "long" && decide (1200 < sec))

/-- Rule 2 of `calculateScore` (lines 120-138): duration bonus/penalty. -/
def durationScore (video : Video) (source : RecommendationSource) : Int × List String :=
  match source.preferredDurations with
  | none => (0, [])
  | some prefs =>
    if prefs.length > 0 then
      let sec := parseDurationToSeconds video.isoDuration
      if durationMatchB prefs sec then (200, ["Duration Match (Priority)"])
      else if 0 < sec then (-500, ["Duration Mismatch (Penalty)"])
      else (0, [])
    else (0, [])

/-- Rule 3 (lines 140-144): preferred-channel substring match. -/
def channelScore (video : Video) (source : RecommendationSource) : Int × List String :=
  if source.preferredChannels.any
      (fun c => strHasSub (toLowerStr video.channelName) (toLowerStr c)) then
    (50, ["Preferred Channel"])
  else (0, [])

/-- Rule 4 (lines 146-150): subscription match. -/
def subScore (video : Video) (source : RecommendationSource) : Int × List String :=
  if source.subscribedChannels.any
      (fun c => c.id == video.channelId || toLowerStr c.name == toLowerStr video.channelName) then
    (30, ["Subscribed Channel"])
  else (0, [])

/-- Rule 5 (lines 152-158): +40 per preferred genre occurring in the text. -/
def genreScore (video : Video) (source : RecommendationSource) : Int × List String :=
  source.preferredGenres.foldl
    (fun acc genre =>
      if strHasSub (fullTextOf video) (toLowerStr genre) then
        add acc (40, ["Genre Match: " ++ genre])
      else acc)
    (0, [])

/-- The `tagKeywords` table of lines 161-173. -/
def tagKeywords : String → Option (List String)
  | "casual" => some ["short", "funny", "meme", "切り抜き", "まとめ", "爆笑"]
  | "deep" => some ["documentary", "history", "analysis", "解説", "考察", "講座", "徹底", "完全"]
  | "instrumental" => some ["instrumental", "no talking", "off vocal", "bgm", "asmr", "作業用"]
  | "vocal" => some ["cover", "talk", "radio", "雑談", "歌ってみた", "karaoke"]
  | "live" => some ["live", "stream", "archive", "配信", "生放送"]
  | "solo" => some ["solo", "playing", "play", "ぼっち", "一人"]
  | "collab" => some ["collab", "with", "feat", "コラボ", "ゲスト"]
  | "entertainment" => some ["fun", "variety", "エンタメ", "ドッキリ", "企画"]
  | "education" => some ["study", "learn", "lesson", "講座", "勉強", "ニュース"]
  | "avatar" => some ["vtuber", "anime", "3d", "2d", "live2d"]
  | "real" => some ["vlog", "face", "real", "実写", "顔出し"]
  | _ => none

/-- The helper `checkContext` of lines 175-182.  In JS, `prefVal &&` also rejects the
empty string (falsy); the unused `key` argument of the source is dropped. -/
def checkContext (video : Video) (prefVal : Option String) : Int × List String :=
  match prefVal with
  | none => (0, [])
  | some pv =>
    if pv ≠ "" ∧ pv ≠ "any" then
      match tagKeywords pv with
      | some ks =>
        if ks.any (fun k => strHasSub (fullTextOf video) k) then (30, ["Context: " ++ pv])
        else (0, [])
      | none => (0, [])
    else (0, [])

/-- Rule 6 (lines 184-189): the six context checks, in source order. -/
def contextScore (video : Video) (source : RecommendationSource) : Int × List String :=
  add (checkContext video source.prefDepth)
    (add (checkContext video source.prefVocal)
      (add (checkContext video source.prefLive)
        (add (checkContext video source.prefCommunity)
          (add (checkContext video source.prefInfoEnt)
            (checkContext video source.prefVisual)))))

/-- Rule 7 (lines 191-197): freshness bonus.  Note the fixed marker set of the
source: the Japanese minutes/hours/days markers plus only the English
`hours ago`. -/
def freshScore (video : Video) (source : RecommendationSource) : Int × List String :=
  if source.preferredFreshness = some "new" then
    if strHasSub video.uploadedAt "分前" || strHasSub video.uploadedAt "時間前" ||
        strHasSub video.uploadedAt "日前" || strHasSub video.uploadedAt "hours ago" then
      (20, ["Fresh"])
    else (0, [])
  else (0, [])

/-- Rules 3-7: everything the scorer accumulates after the duration rule. -/
def restScore (video : Video) (source : RecommendationSource) : Int × List String :=
  add (channelScore video source)
    (add (subScore video source)
      (add (genreScore video source)
        (add (contextScore video source) (freshScore video source))))

/-- Rules 2-7 in evaluation order. -/
def scoreParts (video : Video) (source : RecommendationSource) : Int × List String :=
  add (durationScore video source) (restScore video source)

/-- The scorer `calculateScore` of `src/unnamed/part_000` lines 100-200: NG short-circuit,
then the additive rules 2-7 with their reason trace in evaluation order. -/
def calculateScore (video : Video) (source : RecommendationSource) : Int × List String :=
  match ngHit video source with
  | some ng => (-10000, ["NG Keyword: " ++ ng])
  | none => scoreParts video source

/-- The `ScoredVideo` shape (lines 70-73): a video annotated with score and reasons. -/
structure ScoredVideo where
  video : Video
  score : Int
  debugReason : List String
deriving DecidableEq

/-- The scoring map of lines 312-315. -/
def scoreCandidates (source : RecommendationSource) (l : List Video) : List ScoredVideo :=
  l.map (fun v => ⟨v, (calculateScore v source).1, (calculateScore v source).2⟩)

/-- The deduplication loop of lines 298-306, with the `seenIds` set carried as
the list of already-seen ids. -/
def dedupGo (seen : List String) : List Video → List Video
  | [] => []
  | v :: rest =>
    if v.id ∈ seen then dedupGo seen rest
    else v :: dedupGo (v.id :: seen) rest

/-- First-seen deduplication by video id (lines 298-306). -/
def dedupById (l : List Video) : List Video := dedupGo [] l

/-- The aggregation stage of `getDeeplyAnalyzedRecommendations`: the fetched
lists flattened in source order (lines 290-296), then deduplicated. -/
def aggregate (fetched : List (List Video)) : List Video :=
  dedupById fetched.flatten

/-- The final stage of `getDeeplyAnalyzedRecommendations` (lines 317-325):
keep scores strictly above -100, stable-sort by score descending (the JS
comparator `(a, b) => b.score - a.score`), cap at 50. -/
def finalizeStrict (scored : List ScoredVideo) : List ScoredVideo :=
  (((scored.filter (fun v => decide (-100 < v.score))).mergeSort
      (fun a b => decide (b.score ≤ a.score))).take 50)

end Engine

/-- One Fisher-Yates swap `[arr[i], arr[j]] = [arr[j], arr[i]]` on a list. -/
def swapL {α : Type} (l : List α) (i j : Nat) : List α :=
  match l[i]?, l[j]? with
  | some a, some b => (l.set i b).set j a
  | _, _ => l

/-- The Fisher-Yates loop of `shuffleArray` (`for i = len-1; i > 0; i--`),
with the random index draw `Math.floor(Math.random() * (i + 1))` injected as
`c i % (i + 1)` for an arbitrary choice function `c`. -/
def shuffleGo {α : Type} (c : Nat → Nat) : Nat → List α → List α
  | 0, l => l
  | i + 1, l => shuffleGo c i (swapL l (i + 1) (c (i + 1) % (i + 2)))

/-- The helper `shuffleArray` as it appears in all three source files, over an injected
randomness source. -/
def shuffleArray {α : Type} (c : Nat → Nat) (l : List α) : List α :=
  match l.length with
  | 0 => l
  | n + 1 => shuffleGo c n l

namespace Xrai

/-- The `RecommendationSource` of `src/unnamed/part_001` lines 7-16. -/
structure RecommendationSource where
  searchHistory : List String
  watchHistory : List Video
  subscribedChannels : List Channel
  preferredGenres : List String
  preferredChannels : List String
  ngKeywords : List String
  ngChannels : List String
  page : Int
deriving DecidableEq

/-- The helper `chunkArray` of lines 30-36 (the `i += size` slicing loop, as take/drop
recursion; the source only ever calls it with `size = 3`, and a zero size —
an infinite loop in JS — is mapped to a single chunk). -/
def chunkArray {α : Type} (size : Nat) : List α → List (List α)
  | [] => []
  | x :: xs =>
    match size with
    | 0 => [x :: xs]
    | n + 1 => (x :: xs).take (n + 1) :: chunkArray (n + 1) ((x :: xs).drop (n + 1))
termination_by l => l.length
decreasing_by
  simp only [List.length_drop, List.length_cons]
  omega

/-- Append a video to the mixer output unless its id was already emitted
(lines 84-87; `seenIds` is exactly the set of ids already in `result`). -/
def pushUnique (result : List Video) (c : Video) : List Video :=
  if result.any (fun v => v.id == c.id) then result else result ++ [c]

/-- One-iteration-per-call unfolding of the `mixFeeds` loop (lines 55-88).
`origA` is the original discovery list, used only for the emitted-from-A count
(`result.filter(v => discoveryList.includes(v)).length`, with JS object
identity modelled as structural equality); the branch structure reproduces the
source: with both pools nonempty the ratio test decides, a nonempty pool A
drains when B is exhausted and vice versa, and an iteration with both pools
exhausted emits nothing. -/
def mixLoop (origA : List Video) (r : ℚ) : Nat → List Video → List Video → List Video → List Video
  | 0, _, _, result => result
  | fuel + 1, A, B, result =>
    let currentCountA : Nat := (result.filter (fun v => origA.contains v)).length
    match A, B with
    | [], [] => mixLoop origA r fuel [] [] result
    | a :: A', [] => mixLoop origA r fuel A' [] (pushUnique result a)
    | [], b :: B' => mixLoop origA r fuel [] B' (pushUnique result b)
    | a :: A', b :: B' =>
      if ((currentCountA : ℚ) / ((result.length : ℚ) + 1) < r) then
        mixLoop origA r fuel A' (b :: B') (pushUnique result a)
      else
        mixLoop origA r fuel (a :: A') B' (pushUnique result b)

/-- The mixer `mixFeeds` of `src/unnamed/part_001` lines 46-91: ratio-controlled
interleaving of the discovery and comfort pools with cross-pool id dedup,
iterated `discoveryList.length + comfortList.length` times. -/
def mixFeeds (discoveryList comfortList : List Video) (discoveryRatio : ℚ) : List Video :=
  mixLoop discoveryList discoveryRatio (discoveryList.length + comfortList.length)
    discoveryList comfortList []

/-- Proposition that `l` interleaves `A` and `B`: it contains exactly the elements of both, each
pool in its own relative order. -/
inductive Interleave : List Video → List Video → List Video → Prop
  | nil : Interleave [] [] []
  | left {A B m : List Video} (a : Video) : Interleave A B m → Interleave (a :: A) B (a :: m)
  | right {A B m : List Video} (b : Video) : Interleave A B m → Interleave A (b :: B) (b :: m)

/-- The collaborators of `./api` consumed by the pipeline, as outcome oracles:
each call either yields a video list or fails. -/
structure ApiOracle where
  searchVideos : String → String → Except Unit (List Video)
  getVideoDetails : String → Except Unit (List Video)
  getChannelVideos : String → Except Unit (List Video)
  getRecommendedVideos : Except Unit (List Video)

/-- The `.catch(() => [])` idiom: a failed call degrades to an empty list. -/
def recover (x : Except Unit (List Video)) : List Video :=
  match x with
  | .ok v => v
  | .error _ => []

/-- JS `Promise.all`: succeeds with all results, fails if any member fails. -/
def promiseAll : List (Except Unit (List Video)) → Except Unit (List (List Video))
  | [] => .ok []
  | p :: ps =>
    match p, promiseAll ps with
    | .ok v, .ok vs => .ok (v :: vs)
    | .error e, _ => .error e
    | .ok _, .error e => .error e

/-- The query template `chunk.join(' OR ')` of line 135. -/
def joinOr : List String → String
  | [] => ""
  | [k] => k
  | k :: k' :: ks => k ++ " OR " ++ joinOr (k' :: ks)

/-- Helper for `dedupStrings`, carrying the set of already-seen strings. -/
def dedupStringsGo (seen : List String) : List String → List String
  | [] => []
  | s :: rest =>
    if s ∈ seen then dedupStringsGo seen rest
    else s :: dedupStringsGo (s :: seen) rest

/-- String dedup via `new Set` (line 124): first occurrence kept, in order. -/
def dedupStrings (l : List String) : List String := dedupStringsGo [] l

/-- Video dedup via `new Map(list.map(v => [v.id, v])).values()` (lines
203-204): a key keeps its first insertion position but its last value. -/
def upsert : List Video → Video → List Video
  | [], v => [v]
  | w :: rest, v => if w.id == v.id then v :: rest else w :: upsert rest v

/-- JS `Map`-based dedup: first-key position, last value wins. -/
def mapDedup (l : List Video) : List Video := l.foldl upsert []

/-- The entry point `getXraiRecommendations` of `src/unnamed/part_001` lines 95-232, as the
fetch-and-join orchestration over an `ApiOracle`.

Modelled from the spec: the repository imports `buildUserProfile` and
`rankVideos` from a `./xrai` module that is not among the source files.  Per
§4.4 the profile is a pure function of the call's history inputs whose keyword
weights come from the keyword extractor ("Empty input yields an empty
sequence", §4.1), so the profile's weighted keyword list enters as the
parameter `profileKeywords` (empty whenever watch/search/subscription history
are all empty); per §4.9 `rankVideos` is a mode-aware ranking pass over a
candidate list, entering as the parameter `rank`.  The random draw of a recent
history video (line 166) is the injected `pick`, and the subscription shuffle
(line 177) uses the injected choice function `c`.

Every fetch of the source carries `.catch(() => [])` — modelled by wrapping
the oracle outcome in `recover` and re-wrapping as a succeeding promise —
except the new-user fallback `getRecommendedVideos()` of line 189, which the
source pushes uncaught; it is therefore pushed here as the raw oracle
outcome. -/
def getXraiRecommendations (api : ApiOracle) (profileKeywords : List String)
    (rank : List Video → String → List Video) (pick : Nat) (c : Nat → Nat)
    (sources : RecommendationSource) : Except Unit (List Video) :=
  let priorityKeywords := dedupStrings (sources.preferredGenres ++ profileKeywords)
  let topKeywords := priorityKeywords.take 12
  let discovery1 : List (Except Unit (List Video)) :=
    if topKeywords.length > 0 then
      (chunkArray 3 topKeywords).map
        (fun chunk => .ok (recover (api.searchVideos (joinOr chunk) (toString sources.page))))
    else []
  let discovery2 : List (Except Unit (List Video)) :=
    if topKeywords.length = 0 ∧ sources.page = 1 then
      discovery1 ++ [.ok (recover (api.searchVideos "trending Japan" "1"))]
    else discovery1
  let comfort1 : List (Except Unit (List Video)) :=
    if sources.watchHistory.length > 0 then
      [.ok (recover (api.getVideoDetails
        ((sources.watchHistory.getD (pick % min sources.watchHistory.length 5) default).id)))]
    else []
  let comfort2 : List (Except Unit (List Video)) :=
    if sources.subscribedChannels.length > 0 then
      comfort1 ++ ((shuffleArray c sources.subscribedChannels).take 2).map
        (fun sub => .ok ((recover (api.getChannelVideos sub.id)).take 8))
    else comfort1
  let discoveryPromises : List (Except Unit (List Video)) :=
    if sources.watchHistory.length = 0 ∧ sources.subscribedChannels.length = 0 ∧
        topKeywords.length = 0 ∧ discovery2.length = 0 then
      discovery2 ++ [api.getRecommendedVideos]
    else discovery2
  match promiseAll discoveryPromises, promiseAll comfort2 with
  | .error e, _ => .error e
  | .ok _, .error e => .error e
  | .ok discoveryNested, .ok comfortNested =>
    let uniqueDiscovery := mapDedup discoveryNested.flatten
    let uniqueComfort := mapDedup comfortNested.flatten
    let filteredComfort :=
      uniqueComfort.filter (fun v => !(uniqueDiscovery.any (fun d => d.id == v.id)))
    let rankedDiscovery := rank uniqueDiscovery "discovery"
    let rankedComfort := rank filteredComfort "comfort"
    .ok ((mixFeeds rankedDiscovery rankedComfort (13 / 20 : ℚ)).take 150)

/-- The entry point `getLegacyRecommendations` of lines 237-245: the generic recommended feed,
shuffled; any fetch failure is caught and yields the empty list. -/
def getLegacyRecommendations (api : ApiOracle) (c : Nat → Nat) : List Video :=
  match api.getRecommendedVideos with
  | .ok videos => shuffleArray c videos
  | .error _ => []

end Xrai

namespace Utils

/-- The NG test of `src/utils/recommendation.ts` lines 190-195: the target
text is lower-cased `title + ' ' + channelName + ' ' + (descriptionSnippet
or '')` (note the order differs from the scorer of `part_000`). -/
def videoNg (ngKeywords : List String) (video : Video) : Bool :=
  decide (ngKeywords.length > 0) &&
    ngKeywords.any (fun ng =>
      strHasSub
        (toLowerStr (video.title ++ " " ++ video.channelName ++ " " ++
          video.descriptionSnippet.getD ""))
        (toLowerStr ng))

/-- The `isMatch` computation of lines 199-209: the successive bucket flags,
with the `durationSec === 0` safety override (this variant counts a zero
duration inside the `short` test as well). -/
def utilsDurMatch (prefs : List String) (sec : Nat) : Bool :=
  (prefs.contains "short" && decide (sec < 240)) ||
  (prefs.contains "medium" && decide (240 ≤ sec) && decide (sec ≤ 1200)) ||
  (prefs.contains "long" && decide (1200 < sec)) ||
  decide (sec = 0)

/-- Lines 199-211: the duration filter rejects exactly when preferences were
selected and no bucket (nor the zero override) matched. -/
def videoDurReject (prefs : List String) (video : Video) : Bool :=
  decide (prefs.length > 0) && !(utilsDurMatch prefs (parseDurationToSeconds video.isoDuration))

/-- The dedup-and-filter loop of `getDeeplyAnalyzedRecommendations` in
`src/utils/recommendation.ts` lines 183-215: the candidate's id joins `seen`
BEFORE the NG and duration filters run, so a rejected first occurrence also
suppresses every later candidate with the same id. -/
def filterLoop (ngKeywords prefs : List String) (seen : List String) : List Video → List Video
  | [] => []
  | v :: rest =>
    if v.id ∈ seen then filterLoop ngKeywords prefs seen rest
    else if videoNg ngKeywords v then filterLoop ngKeywords prefs (v.id :: seen) rest
    else if videoDurReject prefs v then filterLoop ngKeywords prefs (v.id :: seen) rest
    else v :: filterLoop ngKeywords prefs (v.id :: seen) rest

/-- The probabilistic short-video exclusion of lines 217-226, with the
per-element `Math.random() > 0.7` draw injected as `rb` indexed by position. -/
def shortFilter (prefs : List String) (rb : Nat → Bool) (l : List Video) : List Video :=
  if 20 < l.length then
    (l.enum.filter (fun p =>
      prefs.contains "short" ||
      decide (60 < parseDurationToSeconds p.2.isoDuration) || rb p.1)).map Prod.snd
  else l

/-- The tail of `getDeeplyAnalyzedRecommendations` (lines 182-229) from the
combined fetched candidates onward: dedup-and-filter loop, short exclusion,
shuffle, cap at `TARGET_COUNT = 100`. -/
def pipelineTail (ngKeywords prefs : List String) (rb : Nat → Bool) (c : Nat → Nat)
    (combined : List Video) : List Video :=
  (shuffleArray c (shortFilter prefs rb (filterLoop ngKeywords prefs [] combined))).take 100

end Utils

/-- An optional duration component: a digit run followed by its marker letter,
or nothing at all when the run is empty (the component is absent). -/
def optComp (ds : List Char) (c : Char) : List Char :=
  if ds = [] then [] else ds ++ [c]

/-- A duration string of the shape `PT(\d+H)?(\d+M)?(\d+S)?`: the literal `PT`
followed by the three optional components; an empty digit run encodes an
absent component. -/
def mkDur (dh dm ds : List Char) : String :=
  String.mk ('P' :: 'T' :: (optComp dh 'H' ++ optComp dm 'M' ++ optComp ds 'S'))

/-- A concrete video whose id and title are the given string (test input). -/
def mkVid (i : String) : Video :=
  ⟨i, i, "", "", none, "", ""⟩

/-- A preference snapshot with every signal empty (test input). -/
def Engine.emptySource : Engine.RecommendationSource :=
  ⟨[], [], [], [], [], none, none, none, none, none, none, none, none, none, none, none,
    none, none, 1⟩

/-- A dual-pool pipeline call with no history, no subscriptions, no explicit
genres, on page 2 (test input; page 2 skips the generic trending query). -/
def Xrai.emptySources : Xrai.RecommendationSource :=
  ⟨[], [], [], [], [], [], [], 2⟩

/-- An API oracle whose search/channel/details calls succeed with empty lists
while the generic recommended-feed lookup fails (test input). -/
def Xrai.failApi : Xrai.ApiOracle :=
  ⟨fun _ _ => .ok [], fun _ => .ok [], fun _ => .ok [], .error ()⟩

/-- The bucket classification of the claim (and of §4.2-4.3 of the spec):
short is strictly between 0 and 240 seconds, medium is 240 to 1200 inclusive,
long is above 1200. -/
def inPreferredBucket (prefs : List String) (sec : Nat) : Prop :=
  ("short" ∈ prefs ∧ 0 < sec ∧ sec < 240) ∨
  ("medium" ∈ prefs ∧ 240 ≤ sec ∧ sec ≤ 1200) ∨
  ("long" ∈ prefs ∧ 1200 < sec)

instance (prefs : List String) (sec : Nat) : Decidable (inPreferredBucket prefs sec) := by
  unfold inPreferredBucket
  infer_instance

/-- Rules 2-6 of the scorer: everything accumulated before the freshness
bonus. -/
def Engine.preFresh (video : Video) (source : Engine.RecommendationSource) : Int × List String :=
  Engine.add (Engine.durationScore video source)
    (Engine.add (Engine.channelScore video source)
      (Engine.add (Engine.subScore video source)
        (Engine.add (Engine.genreScore video source) (Engine.contextScore video source))))

/-- A 300-second video (test input). -/
def vid300 : Video := { mkVid "v300" with isoDuration := "PT5M" }

/-- A 50-second video (test input). -/
def vid50 : Video := { mkVid "v50" with isoDuration := "PT50S" }

/-- A video with an empty (unparseable) duration string (test input). -/
def vidUnknown : Video := mkVid "vu"

/-- A snapshot preferring medium-length videos only (test input). -/
def srcMedium : Engine.RecommendationSource :=
  { Engine.emptySource with preferredDurations := some ["medium"] }

/-- A video whose title matches the NG keyword `bad` (test input). -/
def vidBad : Video := { mkVid "v1" with title := "Bad Video" }

/-- A snapshot with the single NG keyword `bad` (test input). -/
def srcNg : Engine.RecommendationSource :=
  { Engine.emptySource with ngKeywords := some ["bad"] }

/-- A snapshot preferring new videos (test input). -/
def srcNew : Engine.RecommendationSource :=
  { Engine.emptySource with preferredFreshness := some "new" }

/-- A video uploaded minutes ago, phrased in English (test input). -/
def vidFreshEn : Video := { mkVid "vf" with uploadedAt := "3 minutes ago" }

/-- A video uploaded hours ago, phrased in Japanese (test input). -/
def vidFreshJa : Video := { mkVid "vj" with uploadedAt := "3時間前" }

/-- An NG-disqualified scored candidate (test input). -/
def Engine.svNg : Engine.ScoredVideo := ⟨mkVid "s0", -10000, ["NG Keyword: bad"]⟩

/-- A mildly positive scored candidate (test input). -/
def Engine.svOk : Engine.ScoredVideo := ⟨mkVid "s1", 40, ["Genre Match: cooking"]⟩

/-! ## Theorems -/

/-! ### The duration parser (claim C7) -/

theorem takeWhile_stop {p : Char → Bool} (l : List Char) (c : Char) (rest : List Char)
    (hl : ∀ x ∈ l, p x = true) (hc : p c = false) :
    (l ++ c :: rest).takeWhile p = l := by
  induction l with
  | nil => simp [List.takeWhile_cons, hc]
  | cons a l ih =>
    simp [List.cons_append, List.takeWhile_cons, hl a (by simp),
      ih (fun x hx => hl x (by simp [hx]))]

theorem component_hit (dsl : List Char) (c : Char) (rest : List Char) (hne : dsl ≠ [])
    (hd : ∀ x ∈ dsl, x.isDigit = true) (hc : c.isDigit = false) :
    component (dsl ++ c :: rest) c = (decVal dsl, rest) := by
  have ht : (dsl ++ c :: rest).takeWhile Char.isDigit = dsl := takeWhile_stop dsl c rest hd hc
  have hdr : (dsl ++ c :: rest).drop dsl.length = c :: rest := List.drop_left _ _
  simp only [component, ht, hdr]
  cases dsl with
  | nil => exact absurd rfl hne
  | cons d ds' => simp

theorem component_skip (dsl : List Char) (c' : Char) (rest : List Char) (c : Char)
    (hd : ∀ x ∈ dsl, x.isDigit = true) (hc' : c'.isDigit = false) (hcc : c' ≠ c) :
    component (dsl ++ c' :: rest) c = (0, dsl ++ c' :: rest) := by
  have ht : (dsl ++ c' :: rest).takeWhile Char.isDigit = dsl := takeWhile_stop dsl c' rest hd hc'
  have hdr : (dsl ++ c' :: rest).drop dsl.length = c' :: rest := List.drop_left _ _
  simp only [component, ht, hdr]
  cases dsl with
  | nil => simp
  | cons d ds' => simp [hcc]

theorem component_nil (c : Char) : component [] c = (0, []) := rfl

theorem component_opt (dsl : List Char) (c : Char) (X : List Char)
    (hd : ∀ x ∈ dsl, x.isDigit = true) (hc : c.isDigit = false)
    (hX : component X c = (0, X)) :
    component (optComp dsl c ++ X) c = (decVal dsl, X) := by
  cases dsl with
  | nil => simpa [optComp, decVal] using hX
  | cons d ds' =>
    have harr : optComp (d :: ds') c ++ X = (d :: ds') ++ c :: X := by
      simp [optComp, List.append_assoc]
    rw [harr, component_hit _ _ _ (by simp) hd hc]

theorem findPT_PT (body : List Char) : findPT ('P' :: 'T' :: body) = some body := by
  simp [findPT, startsWithChars]

theorem findPT_none (cs : List Char) (h : hasSubChars ['P', 'T'] cs = false) :
    findPT cs = none := by
  induction cs with
  | nil => rfl
  | cons c rest ih =>
    simp only [hasSubChars, Bool.or_eq_false_iff] at h
    simp only [findPT, h.1, if_false]
    exact ih h.2

/-- C7: For every duration string of the form `PT` followed by optional
components `nH`, `nM`, `nS` (each a decimal digit run, any subset may be
absent), `parseDurationToSeconds` returns `h*3600 + m*60 + s`, the absent
components counting as `0`; and for every string in which the regex finds no
match (no occurrence of the literal `PT`, which covers the empty string), it
returns `0`.  The result is a `Nat`, hence always a non-negative integer. -/
theorem parseDurationToSeconds_spec :
    (∀ dh dm ds : List Char,
      (∀ x ∈ dh, x.isDigit = true) → (∀ x ∈ dm, x.isDigit = true) →
      (∀ x ∈ ds, x.isDigit = true) →
      parseDurationToSeconds (mkDur dh dm ds) =
        decVal dh * 3600 + decVal dm * 60 + decVal ds) ∧
    (∀ s : String, hasSubChars ['P', 'T'] s.data = false → parseDurationToSeconds s = 0) := by
  constructor
  · intro dh dm ds hdh hdm hds
    have hSd : ('S' : Char).isDigit = false := by decide
    have hMd : ('M' : Char).isDigit = false := by decide
    have hHd : ('H' : Char).isDigit = false := by decide
    have h3 : component (optComp ds 'S') 'S' = (decVal ds, []) := by
      have := component_opt ds 'S' [] hds hSd (component_nil 'S')
      simpa using this
    have hX2 : component (optComp ds 'S') 'M' = (0, optComp ds 'S') := by
      cases ds with
      | nil => simp [optComp, component_nil]
      | cons d ds' =>
        have harr : optComp (d :: ds') 'S' = (d :: ds') ++ 'S' :: [] := by simp [optComp]
        rw [harr]
        exact component_skip _ _ _ _ hds hSd (by decide)
    have h2 : component (optComp dm 'M' ++ optComp ds 'S') 'M' = (decVal dm, optComp ds 'S') :=
      component_opt dm 'M' (optComp ds 'S') hdm hMd hX2
    have hX1 : component (optComp dm 'M' ++ optComp ds 'S') 'H' =
        (0, optComp dm 'M' ++ optComp ds 'S') := by
      cases dm with
      | nil =>
        cases ds with
        | nil => simp [optComp, component_nil]
        | cons d ds' =>
          have harr : optComp ([] : List Char) 'M' ++ optComp (d :: ds') 'S' =
              (d :: ds') ++ 'S' :: [] := by simp [optComp]
          rw [harr]
          exact component_skip _ _ _ _ hds hSd (by decide)
      | cons d dm' =>
        have harr : optComp (d :: dm') 'M' ++ optComp ds 'S' =
            (d :: dm') ++ 'M' :: optComp ds 'S' := by simp [optComp, List.append_assoc]
        rw [harr]
        exact component_skip _ _ _ _ hdm hMd (by decide)
    have h1 : component (optComp dh 'H' ++ (optComp dm 'M' ++ optComp ds 'S')) 'H' =
        (decVal dh, optComp dm 'M' ++ optComp ds 'S') :=
      component_opt dh 'H' _ hdh hHd hX1
    show parseDurationToSeconds (mkDur dh dm ds) = _
    have hdata : (mkDur dh dm ds).data =
        'P' :: 'T' :: (optComp dh 'H' ++ (optComp dm 'M' ++ optComp ds 'S')) := by
      simp [mkDur, List.append_assoc]
    rw [parseDurationToSeconds, hdata, findPT_PT]
    simp only [parsePT, h1, h2, h3]
  · intro s h
    rw [parseDurationToSeconds, findPT_none s.data h]

/-- Witness for C7: `PT1H30M15S` parses to `5415` seconds, and a string with
no `PT` parses to `0`. -/
theorem parseDurationToSeconds_spec_witness :
    parseDurationToSeconds (mkDur ['1'] ['3', '0'] ['1', '5']) =
      decVal ['1'] * 3600 + decVal ['3', '0'] * 60 + decVal ['1', '5'] ∧
    parseDurationToSeconds "12:34" = 0 :=
  ⟨parseDurationToSeconds_spec.1 ['1'] ['3', '0'] ['1', '5']
      (by decide) (by decide) (by decide),
    parseDurationToSeconds_spec.2 "12:34" (by decide)⟩

/-! ### The scorer (claims C1, C2, C9) -/

namespace Engine

theorem add_assoc' (a b c : Int × List String) : add (add a b) c = add a (add b c) := by
  simp [add, Int.add_assoc, List.append_assoc]

/-- C1: If any NG keyword of the source occurs (case-insensitively) in the
scorer's combined text — the space-separated lower-cased title, description
snippet and channel name — then `calculateScore` returns exactly the sentinel
`(-10000, ["NG Keyword: " ++ ng])` for a matched keyword `ng`: a single reason
naming it, with no contribution from any other rule. -/
theorem calculateScore_ngShortCircuit (video : Video) (source : RecommendationSource)
    (ngs : List String) (hng : source.ngKeywords = some ngs)
    (hmatch : ∃ ng ∈ ngs, strHasSub (fullTextOf video) (toLowerStr ng) = true) :
    ∃ ng ∈ ngs, strHasSub (fullTextOf video) (toLowerStr ng) = true ∧
      calculateScore video source = (-10000, ["NG Keyword: " ++ ng]) := by
  have hsome : (ngs.find? (fun ng => strHasSub (fullTextOf video) (toLowerStr ng))).isSome := by
    rw [List.find?_isSome]
    exact hmatch
  obtain ⟨ng, hfind⟩ := Option.isSome_iff_exists.mp hsome
  have hptrue : strHasSub (fullTextOf video) (toLowerStr ng) = true := by
    have h := List.find?_some hfind
    simpa using h
  refine ⟨ng, List.mem_of_find?_eq_some hfind, hptrue, ?_⟩
  simp [calculateScore, ngHit, hng, hfind]

/-- Witness for C1: a video titled `Bad Video` against the NG keyword `bad`
is disqualified with the sentinel score and the single NG reason. -/
theorem calculateScore_ngShortCircuit_witness :
    ∃ ng ∈ ["bad"], strHasSub (fullTextOf vidBad) (toLowerStr ng) = true ∧
      calculateScore vidBad srcNg = (-10000, ["NG Keyword: " ++ ng]) :=
  calculateScore_ngShortCircuit vidBad srcNg ["bad"] rfl ⟨"bad", by decide, by decide⟩

/-- C2: With a non-empty preferred-duration set and no NG match, the score
decomposes as the duration contribution plus the other rules, and the duration
contribution is exactly one of three outcomes: `+200` with the priority-match
reason when the parsed duration falls in a preferred bucket (short strictly
between 0 and 240 s, medium 240-1200 s inclusive, long above 1200 s), `-500`
with the mismatch reason when the duration is non-zero and in no preferred
bucket, and nothing at all when the duration parses to 0 (empty or
unparseable string). -/
theorem calculateScore_durationPolicy (video : Video) (source : RecommendationSource)
    (prefs : List String) (hd : source.preferredDurations = some prefs) (hne : prefs ≠ [])
    (hng : ngHit video source = none) :
    calculateScore video source = add (durationScore video source) (restScore video source) ∧
    (inPreferredBucket prefs (parseDurationToSeconds video.isoDuration) →
      durationScore video source = (200, ["Duration Match (Priority)"])) ∧
    (¬ inPreferredBucket prefs (parseDurationToSeconds video.isoDuration) →
      parseDurationToSeconds video.isoDuration ≠ 0 →
      durationScore video source = (-500, ["Duration Mismatch (Penalty)"])) ∧
    (parseDurationToSeconds video.isoDuration = 0 →
      durationScore video source = (0, [])) := by
  have hlen : prefs.length > 0 := List.length_pos.mpr hne
  have hmatch_iff : ∀ sec, durationMatchB prefs sec = true ↔ inPreferredBucket prefs sec := by
    intro sec
    simp only [durationMatchB, inPreferredBucket, List.contains, Bool.or_eq_true,
      Bool.and_eq_true, decide_eq_true_eq, List.elem_iff]
    tauto
  refine ⟨by simp [calculateScore, hng, scoreParts], ?_, ?_, ?_⟩
  · intro hb
    have hB : durationMatchB prefs (parseDurationToSeconds video.isoDuration) = true :=
      (hmatch_iff _).mpr hb
    simp [durationScore, hd, hlen, hB]
  · intro hnb hsec
    have hB : durationMatchB prefs (parseDurationToSeconds video.isoDuration) = false :=
      Bool.eq_false_iff.mpr (fun h => hnb ((hmatch_iff _).mp h))
    simp [durationScore, hd, hlen, hB, Nat.pos_of_ne_zero hsec]
  · intro h0
    have hB : durationMatchB prefs 0 = false := by simp [durationMatchB]
    simp [durationScore, hd, hlen, h0, hB]

/-- Witness for C2: with preferred durations `{medium}`, a 300-second video
gets the +200 priority outcome, a 50-second video the -500 mismatch outcome,
and an empty duration string neither. -/
theorem calculateScore_durationPolicy_witness :
    durationScore vid300 srcMedium = (200, ["Duration Match (Priority)"]) ∧
    durationScore vid50 srcMedium = (-500, ["Duration Mismatch (Penalty)"]) ∧
    durationScore vidUnknown srcMedium = (0, []) :=
  ⟨(calculateScore_durationPolicy vid300 srcMedium ["medium"] rfl (by decide) rfl).2.1
      (by decide),
    (calculateScore_durationPolicy vid50 srcMedium ["medium"] rfl (by decide) rfl).2.2.1
      (by decide) (by decide),
    (calculateScore_durationPolicy vidUnknown srcMedium ["medium"] rfl (by decide) rfl).2.2.2
      (by decide)⟩

/-- C9 counterexample: The claim asserts the +20 freshness bonus for any
minutes/hours/days-ago phrasing in either English or Japanese; but for a video
uploaded `3 minutes ago` (English minutes phrasing) under the `new` freshness
preference the scorer returns score 0 with no reasons — the source only
recognises the Japanese markers and the English `hours ago`. -/
theorem freshnessBonus_counterexample :
    calculateScore vidFreshEn srcNew = (0, []) := by decide

/-- C9 amended: With no NG match, the score decomposes as everything
before the freshness rule plus the freshness contribution; under the `new`
freshness preference the freshness contribution is `+20` with reason `Fresh`
exactly when the recency descriptor contains one of the four markers of the
source — Japanese 分前/時間前/日前 or the English `hours ago` (English
minutes/days phrasings do not count) — and under any other freshness
preference it is always empty. -/
theorem freshnessBonus_amended (video : Video) (source : RecommendationSource)
    (hng : ngHit video source = none) :
    calculateScore video source = add (preFresh video source) (freshScore video source) ∧
    (source.preferredFreshness = some "new" →
      ((strHasSub video.uploadedAt "分前" || strHasSub video.uploadedAt "時間前" ||
          strHasSub video.uploadedAt "日前" || strHasSub video.uploadedAt "hours ago") = true →
        freshScore video source = (20, ["Fresh"])) ∧
      ((strHasSub video.uploadedAt "分前" || strHasSub video.uploadedAt "時間前" ||
          strHasSub video.uploadedAt "日前" || strHasSub video.uploadedAt "hours ago") = false →
        freshScore video source = (0, []))) ∧
    (source.preferredFreshness ≠ some "new" → freshScore video source = (0, [])) := by
  refine ⟨?_, ?_, ?_⟩
  · simp only [calculateScore, hng, scoreParts, restScore, preFresh, add_assoc']
  · intro hnew
    constructor
    · intro hm
      simp [freshScore, hnew, hm]
    · intro hm
      simp [freshScore, hnew, hm]
  · intro hother
    simp [freshScore, hother]

/-- Witness for C9 (amended): a Japanese hours-ago marker gets the bonus, an
English minutes-ago phrasing does not. -/
theorem freshnessBonus_amended_witness :
    freshScore vidFreshJa srcNew = (20, ["Fresh"]) ∧
    freshScore vidFreshEn srcNew = (0, []) :=
  ⟨((freshnessBonus_amended vidFreshJa srcNew rfl).2.1 rfl).1 (by decide),
    ((freshnessBonus_amended vidFreshEn srcNew rfl).2.1 rfl).2 (by decide)⟩

/-! ### Aggregation dedup and the final stage (claims C5, C8) -/

theorem dedupGo_sublist (seen : List String) (l : List Video) :
    (dedupGo seen l).Sublist l := by
  induction l generalizing seen with
  | nil => simp [dedupGo]
  | cons v rest ih =>
    simp only [dedupGo]
    split
    · exact (ih seen).cons v
    · exact (ih (v.id :: seen)).cons₂ v

theorem dedupGo_id_mem (seen : List String) (l : List Video) (x : String) :
    x ∈ (dedupGo seen l).map Video.id ↔ x ∈ l.map Video.id ∧ x ∉ seen := by
  induction l generalizing seen with
  | nil => simp [dedupGo]
  | cons v rest ih =>
    simp only [dedupGo]
    split
    · rename_i hseen
      rw [ih]
      simp only [List.map_cons, List.mem_cons]
      constructor
      · rintro ⟨h1, h2⟩
        exact ⟨Or.inr h1, h2⟩
      · rintro ⟨h1 | h1, h2⟩
        · exact absurd (h1 ▸ hseen) h2
        · exact ⟨h1, h2⟩
    · rename_i hseen
      simp only [List.map_cons, List.mem_cons, ih]
      constructor
      · rintro (h | ⟨h1, h2⟩)
        · exact ⟨Or.inl h, fun hc => hseen (h ▸ hc)⟩
        · exact ⟨Or.inr h1, fun hx => h2 (Or.inr hx)⟩
      · rintro ⟨h1 | h1, h2⟩
        · exact Or.inl h1
        · by_cases hxv : x = v.id
          · exact Or.inl hxv
          · exact Or.inr ⟨h1, fun hx => hx.elim hxv h2⟩

theorem dedupGo_nodup (seen : List String) (l : List Video) :
    ((dedupGo seen l).map Video.id).Nodup := by
  induction l generalizing seen with
  | nil => simp [dedupGo]
  | cons v rest ih =>
    simp only [dedupGo]
    split
    · exact ih seen
    · simp only [List.map_cons, List.nodup_cons]
      refine ⟨?_, ih (v.id :: seen)⟩
      rw [dedupGo_id_mem]
      rintro ⟨-, h2⟩
      exact h2 (List.mem_cons_self _ _)

theorem dedupGo_first (seen : List String) (l : List Video) (v : Video)
    (hv : v ∈ dedupGo seen l) :
    l.find? (fun w => w.id == v.id) = some v := by
  induction l generalizing seen with
  | nil => simp [dedupGo] at hv
  | cons w rest ih =>
    simp only [dedupGo] at hv
    split at hv
    · rename_i hseen
      have hvid : v.id ∈ (dedupGo seen rest).map Video.id := List.mem_map_of_mem _ hv
      rw [dedupGo_id_mem] at hvid
      have hne : (w.id == v.id) = false := by
        simp only [beq_eq_false_iff_ne, ne_eq]
        intro h
        exact hvid.2 (h ▸ hseen)
      simp only [List.find?_cons, hne]
      exact ih seen hv
    · rename_i hseen
      rcases List.mem_cons.mp hv with rfl | hv'
      · simp [List.find?_cons]
      · have hvid : v.id ∈ (dedupGo (w.id :: seen) rest).map Video.id :=
          List.mem_map_of_mem _ hv'
        rw [dedupGo_id_mem] at hvid
        have hne : (w.id == v.id) = false := by
          simp only [beq_eq_false_iff_ne, ne_eq]
          intro h
          exact hvid.2 (h ▸ List.mem_cons_self _ _)
        simp only [List.find?_cons, hne]
        exact ih (w.id :: seen) hv'

/-- C5: The aggregation step of the strict-filter pipeline flattens the
fetched candidate lists in source order and deduplicates by id: the output is
a sublist of the flattened input (first occurrences in encounter order), its
ids are pairwise distinct, every id of the input occurs in the output, and
every kept entry is precisely the first occurrence of its id in the flattened
iteration order. -/
theorem aggregate_spec (fetched : List (List Video)) :
    (aggregate fetched).Sublist fetched.flatten ∧
    ((aggregate fetched).map Video.id).Nodup ∧
    (∀ x, x ∈ fetched.flatten.map Video.id ↔ x ∈ (aggregate fetched).map Video.id) ∧
    (∀ v ∈ aggregate fetched,
      fetched.flatten.find? (fun w => w.id == v.id) = some v) := by
  refine ⟨dedupGo_sublist [] _, dedupGo_nodup [] _, ?_, fun v hv => dedupGo_first [] _ v hv⟩
  intro x
  simp only [aggregate, dedupById]
  rw [dedupGo_id_mem]
  simp

/-- Witness for C5: with id `b` occurring in two fetched lists, the kept entry
is the first-encountered copy. -/
theorem aggregate_spec_witness :
    List.find? (fun w => w.id == (mkVid "b").id)
      (List.flatten [[mkVid "a", mkVid "b"], [{ mkVid "b" with title := "copy" }, mkVid "c"]]) =
      some (mkVid "b") :=
  (aggregate_spec [[mkVid "a", mkVid "b"], [{ mkVid "b" with title := "copy" }, mkVid "c"]]).2.2.2
    (mkVid "b") (by decide)

/-- C8: The final stage of the strict-filter pipeline: the filter keeps
exactly the candidates scoring strictly above -100 (rejecting precisely those
at or below the threshold), every returned candidate is such a survivor, the
returned list is sorted by score in descending order, it is capped at 50
entries, and whenever there are at most 50 survivors the returned set is
exactly the survivor set. -/
theorem finalizeStrict_spec (scored : List ScoredVideo) :
    (∀ v, v ∈ scored.filter (fun w => decide (-100 < w.score)) ↔
      v ∈ scored ∧ -100 < v.score) ∧
    (∀ v ∈ finalizeStrict scored, v ∈ scored ∧ -100 < v.score) ∧
    (finalizeStrict scored).Pairwise (fun a b => b.score ≤ a.score) ∧
    (finalizeStrict scored).length ≤ 50 ∧
    ((scored.filter (fun w => decide (-100 < w.score))).length ≤ 50 →
      ∀ v, v ∈ finalizeStrict scored ↔ v ∈ scored ∧ -100 < v.score) := by
  have hmem_filter : ∀ v, v ∈ scored.filter (fun w => decide (-100 < w.score)) ↔
      v ∈ scored ∧ -100 < v.score := by
    intro v
    simp [List.mem_filter]
  have hperm : ((scored.filter (fun w => decide (-100 < w.score))).mergeSort
      (fun a b => decide (b.score ≤ a.score))).Perm
        (scored.filter (fun w => decide (-100 < w.score))) :=
    List.mergeSort_perm _ _
  have hsorted : ((scored.filter (fun w => decide (-100 < w.score))).mergeSort
      (fun a b => decide (b.score ≤ a.score))).Pairwise (fun a b => b.score ≤ a.score) := by
    have h : List.Pairwise
        (fun a b : ScoredVideo => (fun x y : ScoredVideo => decide (y.score ≤ x.score)) a b = true)
        ((scored.filter (fun w => decide (-100 < w.score))).mergeSort
          (fun x y => decide (y.score ≤ x.score))) :=
      List.sorted_mergeSort
        (fun a b c hab hbc => by
          simp only [decide_eq_true_eq] at *
          exact le_trans hbc hab)
        (fun a b => by
          simp only [Bool.or_eq_true, decide_eq_true_eq]
          exact le_total b.score a.score)
        (scored.filter (fun w => decide (-100 < w.score)))
    exact h.imp (fun hab => by simpa using hab)
  refine ⟨hmem_filter, ?_, ?_, ?_, ?_⟩
  · intro v hv
    simp only [finalizeStrict] at hv
    have hv' : v ∈ (scored.filter (fun w => decide (-100 < w.score))).mergeSort
        (fun a b => decide (b.score ≤ a.score)) :=
      (List.take_sublist _ _).subset hv
    exact (hmem_filter v).mp (hperm.mem_iff.mp hv')
  · simp only [finalizeStrict]
    exact hsorted.sublist (List.take_sublist _ _)
  · simp only [finalizeStrict]
    rw [List.length_take]
    exact min_le_left _ _
  · intro hlen v
    have hlen' : ((scored.filter (fun w => decide (-100 < w.score))).mergeSort
        (fun a b => decide (b.score ≤ a.score))).length ≤ 50 := by
      rw [hperm.length_eq]
      exact hlen
    rw [finalizeStrict, List.take_of_length_le hlen', hperm.mem_iff]
    exact hmem_filter v

/-- Witness for C8: with one NG-scored and one mildly-positive candidate, the
returned set is exactly the single survivor scoring above -100. -/
theorem finalizeStrict_spec_witness :
    svOk ∈ finalizeStrict [svNg, svOk] ↔ svOk ∈ [svNg, svOk] ∧ -100 < svOk.score :=
  (finalizeStrict_spec [svNg, svOk]).2.2.2.2 (by decide) svOk

end Engine

/-! ### The pool mixer (claims C3, C4) -/

namespace Xrai

theorem interleave_perm {A B m : List Video} (h : Interleave A B m) : m.Perm (A ++ B) := by
  induction h with
  | nil => rfl
  | left a _ ih => exact ih.cons a
  | right b _ ih => exact (ih.cons b).trans List.perm_middle.symm

theorem interleave_sublist_left {A B m : List Video} (h : Interleave A B m) : A.Sublist m := by
  induction h with
  | nil => simp
  | left a _ ih => exact ih.cons₂ a
  | right b _ ih => exact ih.cons b

theorem interleave_sublist_right {A B m : List Video} (h : Interleave A B m) : B.Sublist m := by
  induction h with
  | nil => simp
  | left a _ ih => exact ih.cons a
  | right b _ ih => exact ih.cons₂ b

theorem pushUnique_fresh (result : List Video) (c : Video)
    (h : ∀ w ∈ result, c.id ≠ w.id) : pushUnique result c = result ++ [c] := by
  have hno : result.any (fun v => v.id == c.id) = false := by
    rw [Bool.eq_false_iff]
    intro hcon
    simp only [List.any_eq_true, beq_iff_eq] at hcon
    obtain ⟨w, hw, hweq⟩ := hcon
    exact h w hw hweq.symm
  simp [pushUnique, hno]

theorem ids_ne_head_left (a : Video) (A' B : List Video)
    (h : (((a :: A') ++ B).map Video.id).Nodup) :
    ∀ v ∈ A' ++ B, v.id ≠ a.id := by
  intro v hv hva
  simp only [List.cons_append, List.map_cons, List.nodup_cons] at h
  exact h.1 (hva ▸ List.mem_map_of_mem Video.id hv)

theorem ids_ne_head_right (b : Video) (A B' : List Video)
    (h : ((A ++ b :: B').map Video.id).Nodup) :
    ∀ v ∈ A ++ B', v.id ≠ b.id := by
  intro v hv hvb
  rw [List.map_append, List.map_cons] at h
  rcases List.mem_append.mp hv with hva | hvb'
  · exact (List.nodup_append.mp h).2.2 (List.mem_map_of_mem Video.id hva)
      (by rw [hvb]; exact List.mem_cons_self _ _)
  · have h2 := (List.nodup_append.mp h).2.1
    rw [List.nodup_cons] at h2
    exact h2.1 (hvb ▸ List.mem_map_of_mem Video.id hvb')

theorem nodup_drop_head_left (a : Video) (A' B : List Video)
    (h : (((a :: A') ++ B).map Video.id).Nodup) :
    ((A' ++ B).map Video.id).Nodup := by
  simp only [List.cons_append, List.map_cons, List.nodup_cons] at h
  exact h.2

theorem nodup_drop_head_right (b : Video) (A B' : List Video)
    (h : ((A ++ b :: B').map Video.id).Nodup) :
    ((A ++ B').map Video.id).Nodup :=
  h.sublist (List.Sublist.map Video.id (((List.Sublist.refl B').cons b).append_left A))

theorem mem_append_left_cons {v a : Video} {A' X : List Video} (hv : v ∈ A' ++ X) :
    v ∈ (a :: A') ++ X := by
  rcases List.mem_append.mp hv with h | h
  · exact List.mem_append.mpr (Or.inl (List.mem_cons_of_mem a h))
  · exact List.mem_append.mpr (Or.inr h)

theorem mem_append_right_cons {v b : Video} {A X : List Video} (hv : v ∈ A ++ X) :
    v ∈ A ++ (b :: X) := by
  rcases List.mem_append.mp hv with h | h
  · exact List.mem_append.mpr (Or.inl h)
  · exact List.mem_append.mpr (Or.inr (List.mem_cons_of_mem b h))

theorem mixLoop_interleave (origA : List Video) (r : ℚ) :
    ∀ (fuel : Nat) (A B result : List Video),
      A.length + B.length ≤ fuel →
      (∀ v ∈ A ++ B, ∀ w ∈ result, v.id ≠ w.id) →
      ((A ++ B).map Video.id).Nodup →
      ∃ m, Interleave A B m ∧ mixLoop origA r fuel A B result = result ++ m := by
  intro fuel
  induction fuel with
  | zero =>
    intro A B result hlen _ _
    have hA : A = [] := List.length_eq_zero.mp (by omega)
    have hB : B = [] := List.length_eq_zero.mp (by omega)
    subst hA
    subst hB
    exact ⟨[], Interleave.nil, by simp [mixLoop]⟩
  | succ fuel ih =>
    intro A B result hlen hdisj hids
    cases A with
    | nil =>
      cases B with
      | nil =>
        obtain ⟨m, hm, heq⟩ := ih [] [] result (by simp) (by simp) (by simp)
        exact ⟨m, hm, by simpa [mixLoop] using heq⟩
      | cons b B' =>
        have hpush := pushUnique_fresh result b (fun w hw => hdisj b (by simp) w hw)
        have hdisj' : ∀ v ∈ ([] : List Video) ++ B', ∀ w ∈ result ++ [b], v.id ≠ w.id := by
          intro v hv w hw
          rcases List.mem_append.mp hw with hw' | hw'
          · exact hdisj v (mem_append_right_cons hv) w hw'
          · have hwb : w = b := by simpa using hw'
            rw [hwb]
            exact ids_ne_head_right b [] B' (by simpa using hids) v (by simpa using hv)
        obtain ⟨m, hm, heq⟩ := ih [] B' (result ++ [b])
          (by simp only [List.length_nil, List.length_cons] at hlen ⊢; omega) hdisj'
          (nodup_drop_head_right b [] B' (by simpa using hids))
        refine ⟨b :: m, Interleave.right b hm, ?_⟩
        simp only [mixLoop]
        rw [hpush, heq]
        simp
    | cons a A' =>
      cases B with
      | nil =>
        have hpush := pushUnique_fresh result a (fun w hw => hdisj a (by simp) w hw)
        have hdisj' : ∀ v ∈ A' ++ ([] : List Video), ∀ w ∈ result ++ [a], v.id ≠ w.id := by
          intro v hv w hw
          rcases List.mem_append.mp hw with hw' | hw'
          · exact hdisj v (mem_append_left_cons hv) w hw'
          · have hwa : w = a := by simpa using hw'
            rw [hwa]
            exact ids_ne_head_left a A' [] hids v hv
        obtain ⟨m, hm, heq⟩ := ih A' [] (result ++ [a])
          (by simp only [List.length_nil, List.length_cons] at hlen ⊢; omega) hdisj'
          (nodup_drop_head_left a A' [] hids)
        refine ⟨a :: m, Interleave.left a hm, ?_⟩
        simp only [mixLoop]
        rw [hpush, heq]
        simp
      | cons b B' =>
        simp only [mixLoop]
        split
        · have hpush := pushUnique_fresh result a (fun w hw => hdisj a (by simp) w hw)
          have hdisj' : ∀ v ∈ A' ++ b :: B', ∀ w ∈ result ++ [a], v.id ≠ w.id := by
            intro v hv w hw
            rcases List.mem_append.mp hw with hw' | hw'
            · exact hdisj v (mem_append_left_cons hv) w hw'
            · have hwa : w = a := by simpa using hw'
              rw [hwa]
              exact ids_ne_head_left a A' (b :: B') hids v hv
          obtain ⟨m, hm, heq⟩ := ih A' (b :: B') (result ++ [a])
            (by simp only [List.length_cons] at hlen ⊢; omega) hdisj'
            (nodup_drop_head_left a A' (b :: B') hids)
          refine ⟨a :: m, Interleave.left a hm, ?_⟩
          rw [hpush, heq]
          simp
        · have hpush := pushUnique_fresh result b
            (fun w hw => hdisj b (by simp) w hw)
          have hdisj' : ∀ v ∈ (a :: A') ++ B', ∀ w ∈ result ++ [b], v.id ≠ w.id := by
            intro v hv w hw
            rcases List.mem_append.mp hw with hw' | hw'
            · exact hdisj v (mem_append_right_cons hv) w hw'
            · have hwb : w = b := by simpa using hw'
              rw [hwb]
              exact ids_ne_head_right b (a :: A') B' hids v hv
          obtain ⟨m, hm, heq⟩ := ih (a :: A') B' (result ++ [b])
            (by simp only [List.length_cons] at hlen ⊢; omega) hdisj'
            (nodup_drop_head_right b (a :: A') B' hids)
          refine ⟨b :: m, Interleave.right b hm, ?_⟩
          rw [hpush, heq]
          simp

/-- C3: For input pools with pairwise-distinct ids (within and across the
two lists) and any ratio, `mixFeeds` returns an interleaving that is a
permutation of `A ++ B` — every element of both pools appears exactly once,
with no loss and no duplication — in which pool A keeps its relative order and
pool B keeps its relative order. -/
theorem mixFeeds_complete (A B : List Video) (r : ℚ)
    (hids : ((A ++ B).map Video.id).Nodup) :
    (mixFeeds A B r).Perm (A ++ B) ∧
    A.Sublist (mixFeeds A B r) ∧ B.Sublist (mixFeeds A B r) := by
  obtain ⟨m, hm, heq⟩ :=
    mixLoop_interleave A r (A.length + B.length) A B [] le_rfl (by simp) hids
  have hfeeds : mixFeeds A B r = m := by
    rw [mixFeeds, heq]
    simp
  rw [hfeeds]
  exact ⟨interleave_perm hm, interleave_sublist_left hm, interleave_sublist_right hm⟩

/-- Witness for C3: pools `[a1, a2, a3]` and `[b1, b2]` at ratio `0.65`. -/
theorem mixFeeds_complete_witness :
    (mixFeeds [mkVid "a1", mkVid "a2", mkVid "a3"] [mkVid "b1", mkVid "b2"]
        (13 / 20 : ℚ)).Perm
      ([mkVid "a1", mkVid "a2", mkVid "a3"] ++ [mkVid "b1", mkVid "b2"]) ∧
    List.Sublist [mkVid "a1", mkVid "a2", mkVid "a3"]
      (mixFeeds [mkVid "a1", mkVid "a2", mkVid "a3"] [mkVid "b1", mkVid "b2"]
        (13 / 20 : ℚ)) ∧
    List.Sublist [mkVid "b1", mkVid "b2"]
      (mixFeeds [mkVid "a1", mkVid "a2", mkVid "a3"] [mkVid "b1", mkVid "b2"]
        (13 / 20 : ℚ)) :=
  mixFeeds_complete [mkVid "a1", mkVid "a2", mkVid "a3"] [mkVid "b1", mkVid "b2"]
    (13 / 20 : ℚ) (by decide)

theorem pushUnique_id_mem (result : List Video) (c : Video) (x : String) :
    x ∈ (pushUnique result c).map Video.id ↔ x ∈ result.map Video.id ∨ x = c.id := by
  simp only [pushUnique]
  split
  · rename_i h
    constructor
    · exact Or.inl
    · rintro (hx | rfl)
      · exact hx
      · simp only [List.any_eq_true, beq_iff_eq] at h
        obtain ⟨v, hv, hveq⟩ := h
        exact List.mem_map.mpr ⟨v, hv, hveq⟩
  · simp

theorem pushUnique_nodup (result : List Video) (c : Video)
    (h : (result.map Video.id).Nodup) :
    ((pushUnique result c).map Video.id).Nodup := by
  simp only [pushUnique]
  split
  · exact h
  · rename_i hany
    have hnot : c.id ∉ result.map Video.id := by
      intro hc
      obtain ⟨v, hv, hveq⟩ := List.mem_map.mp hc
      exact hany (by simp only [List.any_eq_true, beq_iff_eq]; exact ⟨v, hv, hveq⟩)
    simp only [List.map_append, List.map_cons, List.map_nil]
    exact List.Nodup.append h (List.nodup_singleton _)
      (fun x hx hx' => hnot ((by simpa using hx' : x = c.id) ▸ hx))

theorem mixLoop_nodup (origA : List Video) (r : ℚ) :
    ∀ (fuel : Nat) (A B result : List Video), (result.map Video.id).Nodup →
      ((mixLoop origA r fuel A B result).map Video.id).Nodup := by
  intro fuel
  induction fuel with
  | zero =>
    intro A B result h
    simpa [mixLoop] using h
  | succ fuel ih =>
    intro A B result h
    cases A with
    | nil =>
      cases B with
      | nil => simpa [mixLoop] using ih [] [] result h
      | cons b B' => simpa [mixLoop] using ih [] B' _ (pushUnique_nodup result b h)
    | cons a A' =>
      cases B with
      | nil => simpa [mixLoop] using ih A' [] _ (pushUnique_nodup result a h)
      | cons b B' =>
        simp only [mixLoop]
        split
        · exact ih A' (b :: B') _ (pushUnique_nodup result a h)
        · exact ih (a :: A') B' _ (pushUnique_nodup result b h)

theorem mixLoop_id_mem (origA : List Video) (r : ℚ) :
    ∀ (fuel : Nat) (A B result : List Video), A.length + B.length ≤ fuel →
      ∀ x, (x ∈ (mixLoop origA r fuel A B result).map Video.id ↔
        x ∈ result.map Video.id ∨ x ∈ A.map Video.id ∨ x ∈ B.map Video.id) := by
  intro fuel
  induction fuel with
  | zero =>
    intro A B result hlen x
    have hA : A = [] := List.length_eq_zero.mp (by omega)
    have hB : B = [] := List.length_eq_zero.mp (by omega)
    subst hA
    subst hB
    simp [mixLoop]
  | succ fuel ih =>
    intro A B result hlen x
    cases A with
    | nil =>
      cases B with
      | nil =>
        rw [show mixLoop origA r (fuel + 1) [] [] result = mixLoop origA r fuel [] [] result
          from by simp [mixLoop]]
        rw [ih [] [] result (by simp) x]
      | cons b B' =>
        rw [show mixLoop origA r (fuel + 1) [] (b :: B') result =
            mixLoop origA r fuel [] B' (pushUnique result b) from by simp [mixLoop]]
        rw [ih [] B' _ (by simp only [List.length_nil, List.length_cons] at hlen ⊢; omega) x,
          pushUnique_id_mem]
        simp only [List.map_nil, List.not_mem_nil, List.map_cons, List.mem_cons]
        tauto
    | cons a A' =>
      cases B with
      | nil =>
        rw [show mixLoop origA r (fuel + 1) (a :: A') [] result =
            mixLoop origA r fuel A' [] (pushUnique result a) from by simp [mixLoop]]
        rw [ih A' [] _ (by simp only [List.length_nil, List.length_cons] at hlen ⊢; omega) x,
          pushUnique_id_mem]
        simp only [List.map_nil, List.not_mem_nil, List.map_cons, List.mem_cons]
        tauto
      | cons b B' =>
        simp only [mixLoop]
        split
        · rw [ih A' (b :: B') _ (by simp only [List.length_cons] at hlen ⊢; omega) x,
            pushUnique_id_mem]
          simp only [List.map_cons, List.mem_cons]
          tauto
        · rw [ih (a :: A') B' _ (by simp only [List.length_cons] at hlen ⊢; omega) x,
            pushUnique_id_mem]
          simp only [List.map_cons, List.mem_cons]
          tauto

/-- C4: For every pair of input pools and every ratio, the mixer output
has pairwise-distinct video ids, and every id occurring anywhere in the input
pools (in both pools, or several times in one) appears in the output exactly
once: a duplicate reached later is consumed and skipped, never re-queued. -/
theorem mixFeeds_crossDedup (A B : List Video) (r : ℚ) :
    ((mixFeeds A B r).map Video.id).Nodup ∧
    (∀ i, i ∈ (A ++ B).map Video.id →
      ((mixFeeds A B r).map Video.id).count i = 1) := by
  have hnodup : ((mixFeeds A B r).map Video.id).Nodup :=
    mixLoop_nodup A r (A.length + B.length) A B [] (by simp)
  refine ⟨hnodup, fun i hi => ?_⟩
  have hmem : i ∈ (mixFeeds A B r).map Video.id := by
    rw [mixFeeds, mixLoop_id_mem A r (A.length + B.length) A B [] le_rfl i]
    rw [List.map_append, List.mem_append] at hi
    right
    exact hi
  exact List.count_eq_one_of_mem hnodup hmem

/-- Witness for C4: id `x` present in both pools is emitted exactly once. -/
theorem mixFeeds_crossDedup_witness :
    ((mixFeeds [mkVid "a1", mkVid "x"] [{ mkVid "x" with title := "copy" }, mkVid "b1"]
        (13 / 20 : ℚ)).map Video.id).count "x" = 1 :=
  (mixFeeds_crossDedup [mkVid "a1", mkVid "x"] [{ mkVid "x" with title := "copy" }, mkVid "b1"]
      (13 / 20 : ℚ)).2 "x" (by decide)

end Xrai

/-! ### The seen-id/filter interplay of the utils pipeline (claim C10) -/

namespace Utils

theorem filterLoop_seen (ngk prefs : List String) (i : String) :
    ∀ (seen : List String) (l : List Video), i ∈ seen →
      i ∉ (filterLoop ngk prefs seen l).map Video.id := by
  intro seen l
  induction l generalizing seen with
  | nil =>
    intro hseen
    simp [filterLoop]
  | cons v rest ih =>
    intro hseen
    simp only [filterLoop]
    split
    · exact ih seen hseen
    · rename_i hnotseen
      split
      · exact ih (v.id :: seen) (List.mem_cons_of_mem _ hseen)
      · split
        · exact ih (v.id :: seen) (List.mem_cons_of_mem _ hseen)
        · simp only [List.map_cons, List.mem_cons]
          rintro (heq | hmem)
          · exact hnotseen (heq ▸ hseen)
          · exact ih (v.id :: seen) (List.mem_cons_of_mem _ hseen) hmem

theorem filterLoop_rejected_first (ngk prefs : List String) (i : String) :
    ∀ (seen : List String) (l : List Video), i ∉ seen →
      (∀ w, l.find? (fun x => x.id == i) = some w →
        videoNg ngk w = true ∨ videoDurReject prefs w = true) →
      i ∉ (filterLoop ngk prefs seen l).map Video.id := by
  intro seen l
  induction l generalizing seen with
  | nil =>
    intro hns hfind
    simp [filterLoop]
  | cons v rest ih =>
    intro hns hfind
    by_cases hvi : v.id = i
    · have hrej := hfind v (by simp [List.find?_cons, hvi])
      have hvnotseen : v.id ∉ seen := fun h => hns (hvi ▸ h)
      simp only [filterLoop]
      rw [if_neg hvnotseen]
      by_cases hng : videoNg ngk v = true
      · rw [if_pos hng]
        exact filterLoop_seen ngk prefs i (v.id :: seen) rest (by simp [hvi])
      · have hdur : videoDurReject prefs v = true := hrej.resolve_left hng
        rw [if_neg hng, if_pos hdur]
        exact filterLoop_seen ngk prefs i (v.id :: seen) rest (by simp [hvi])
    · have hbeq : (v.id == i) = false := beq_eq_false_iff_ne.mpr hvi
      have hfind' : ∀ w, rest.find? (fun x => x.id == i) = some w →
          videoNg ngk w = true ∨ videoDurReject prefs w = true := by
        intro w hw
        apply hfind
        simp [List.find?_cons, hbeq, hw]
      have hnotseen' : i ∉ v.id :: seen :=
        fun h => (List.mem_cons.mp h).elim (fun he => hvi he.symm) hns
      simp only [filterLoop]
      split
      · exact ih seen hns hfind'
      · split
        · exact ih (v.id :: seen) hnotseen' hfind'
        · split
          · exact ih (v.id :: seen) hnotseen' hfind'
          · simp only [List.map_cons, List.mem_cons]
            rintro (heq | hmem)
            · exact hvi heq.symm
            · exact ih (v.id :: seen) hnotseen' hfind' hmem

theorem shortFilter_subset (prefs : List String) (rb : Nat → Bool) (l : List Video) :
    ∀ v ∈ shortFilter prefs rb l, v ∈ l := by
  intro v hv
  simp only [shortFilter] at hv
  split at hv
  · have hsub : ((l.enum.filter (fun p =>
        prefs.contains "short" ||
        decide (60 < parseDurationToSeconds p.2.isoDuration) || rb p.1)).map Prod.snd).Sublist
          (l.enum.map Prod.snd) :=
      List.Sublist.map Prod.snd (List.filter_sublist _)
    rw [List.enum_map_snd] at hsub
    exact hsub.subset hv
  · exact hv

end Utils

theorem swapL_mem {α : Type} (l : List α) (i j : Nat) :
    ∀ v ∈ swapL l i j, v ∈ l := by
  intro v hv
  simp only [swapL] at hv
  split at hv
  · rename_i a b hi hj
    rcases List.mem_or_eq_of_mem_set hv with hv2 | rfl
    · rcases List.mem_or_eq_of_mem_set hv2 with hv3 | rfl
      · exact hv3
      · exact List.getElem?_mem hj
    · exact List.getElem?_mem hi
  · exact hv

theorem shuffleGo_mem {α : Type} (c : Nat → Nat) :
    ∀ (n : Nat) (l : List α), ∀ v ∈ shuffleGo c n l, v ∈ l := by
  intro n
  induction n with
  | zero =>
    intro l v hv
    simpa [shuffleGo] using hv
  | succ n ih =>
    intro l v hv
    simp only [shuffleGo] at hv
    exact swapL_mem _ _ _ v (ih _ v hv)

theorem shuffleArray_mem {α : Type} (c : Nat → Nat) (l : List α) :
    ∀ v ∈ shuffleArray c l, v ∈ l := by
  intro v hv
  simp only [shuffleArray] at hv
  split at hv
  · exact hv
  · exact shuffleGo_mem c _ l v hv

namespace Utils

/-- C10: In `getDeeplyAnalyzedRecommendations` of
`src/utils/recommendation.ts`, a candidate's id enters the seen-id set before
the NG and duration filters run; consequently, whenever the first-encountered
candidate bearing an id is rejected by the NG filter or the duration filter,
no video with that id appears in the pipeline's output — later duplicate
copies (even ones that would pass every filter) are dropped by the seen-id
check, for every outcome of the injected randomness. -/
theorem seenIdBeforeFilters_spec (ngk prefs : List String) (rb : Nat → Bool) (c : Nat → Nat)
    (combined : List Video) (i : String)
    (hfirst : ∃ v, combined.find? (fun w => w.id == i) = some v ∧
      (videoNg ngk v = true ∨ videoDurReject prefs v = true)) :
    i ∉ (pipelineTail ngk prefs rb c combined).map Video.id := by
  obtain ⟨v0, hfind0, hrej0⟩ := hfirst
  have hloop : i ∉ (filterLoop ngk prefs [] combined).map Video.id := by
    apply filterLoop_rejected_first ngk prefs i [] combined (by simp)
    intro w hw
    injection (hfind0.symm.trans hw) with h
    exact h ▸ hrej0
  intro hmem
  simp only [pipelineTail] at hmem
  obtain ⟨v, hv, hvid⟩ := List.mem_map.mp hmem
  have h1 : v ∈ shuffleArray c (shortFilter prefs rb (filterLoop ngk prefs [] combined)) :=
    (List.take_sublist _ _).subset hv
  have h2 := shuffleArray_mem c _ v h1
  have h3 := shortFilter_subset prefs rb _ v h2
  exact hloop (List.mem_map.mpr ⟨v, h3, hvid⟩)

/-- Witness for C10: the first copy of id `x` matches the NG keyword `bad`, so
even though the second copy of `x` is clean, no video with id `x` is
returned. -/
theorem seenIdBeforeFilters_spec_witness :
    "x" ∉ (pipelineTail ["bad"] [] (fun _ => true) (fun _ => 0)
      [{ mkVid "x" with title := "Bad Video" },
        { mkVid "x" with title := "Nice Video" }]).map Video.id :=
  seenIdBeforeFilters_spec ["bad"] [] (fun _ => true) (fun _ => 0)
    [{ mkVid "x" with title := "Bad Video" }, { mkVid "x" with title := "Nice Video" }] "x"
    ⟨{ mkVid "x" with title := "Bad Video" }, by decide, Or.inl (by decide)⟩

end Utils

/-! ### Error propagation of the dual-pool pipeline (claim C6) -/

namespace Xrai

/-- C6 is violated by the code: the new-user fallback of
`getXraiRecommendations` (`src/unnamed/part_001` line 189) pushes
`getRecommendedVideos()` without the `.catch(() => [])` wrapper that every
other fetch carries, and the promises are joined with `Promise.all`; so on a
call with no watch history, no search history, no subscriptions and no
preferred genres, on a page other than 1 (so the generic trending query is
also skipped), a failing recommended-feed lookup rejects the whole join and
the entry point signals an error to the caller instead of returning a list —
for any ranking function whatsoever. -/
theorem xrai_fallback_error_propagates :
    getXraiRecommendations failApi [] (fun l _ => l) 0 (fun _ => 0) emptySources =
      Except.error () := rfl

end Xrai

end YtRec
